import Mathlib

/-!
Verification of the grenmlin-gui graph-editing core (src/gui.py) against its
natural-language specification.

The Python source is shallowly embedded:
* Python dicts holding node/edge attributes become association lists
  (`Dict`) over a scalar value type `AttrVal`; Python floats are modelled
  as rationals (`ℚ`), except for the trigonometric edge-endpoint geometry
  of `EdgeItem.update_positions`, which is modelled over `ℝ`.
* `GraphScene` and its mouse handlers (`mousePressEvent`, `mouseMoveEvent`,
  `mouseReleaseEvent`, `set_edge_mode`) become a pure state type `Scene`
  with one transition function per handler.  `itemAt` results are passed
  in as parameters (the event position hit-testing is Qt's, not the
  repository's code).  Node identity (Python object identity of
  `NodeItem`s) is modelled by a numeric id; edge identity likewise.
* `math.hypot dx dy < bound` is modelled as `dx^2 + dy^2 < bound^2`:
  both sides of the source comparison are non-negative, and squaring is
  strictly monotone on non-negative reals, so the squared comparison is
  equivalent to the source's comparison of Euclidean distances.
-/

namespace Grenmlin

/-- Scalar attribute values stored in `node_data` / `edge_data` dicts.
Python strings, ints and floats (floats as exact rationals). -/
inductive AttrVal where
  | str (s : String)
  | int (i : Int)
  | rat (q : ℚ)
deriving DecidableEq

/-- A Python dict with string keys, as an association list (first match wins
on lookup, which agrees with Python dicts because keys are unique there). -/
abbrev Dict := List (String × AttrVal)

/-- Python `d.get(k)` / `d[k]`. -/
def dictLookup : Dict → String → Option AttrVal
  | [], _ => none
  | kv :: rest, k => if kv.1 = k then some kv.2 else dictLookup rest k

/-- Python `d[k] = v`: replace the existing entry for `k` in place, else
append a new entry. -/
def dictSet : Dict → String → AttrVal → Dict
  | [], k, v => [(k, v)]
  | (a, b) :: rest, k, v =>
    if a = k then (k, v) :: rest else (a, b) :: dictSet rest k v

/-- Python `d.update(d2)`: assign every entry of `d2` into `d`, in order. -/
def dictUpdate (d d2 : Dict) : Dict :=
  d2.foldl (fun acc kv => dictSet acc kv.1 kv.2) d

theorem dictLookup_dictSet (d : Dict) (k k2 : String) (v : AttrVal) :
    dictLookup (dictSet d k v) k2 = if k = k2 then some v else dictLookup d k2 := by
  induction d with
  | nil =>
    by_cases h : k = k2 <;> simp [dictSet, dictLookup, h]
  | cons kv rest ih =>
    obtain ⟨a, b⟩ := kv
    by_cases hak : a = k
    · subst hak
      by_cases h : a = k2 <;> simp [dictSet, dictLookup, h]
    · by_cases h : a = k2
      · subst h
        have hk : ¬ k = a := fun hh => hak hh.symm
        simp [dictSet, dictLookup, hak, hk]
      · simp [dictSet, dictLookup, hak, h, ih]

theorem dictLookup_eq_none (d : Dict) (k : String)
    (h : k ∉ d.map Prod.fst) : dictLookup d k = none := by
  induction d with
  | nil => rfl
  | cons kv rest ih =>
    simp only [List.map_cons, List.mem_cons, not_or] at h
    have h1 : ¬ kv.1 = k := fun hh => h.1 hh.symm
    simp [dictLookup, h1, ih h.2]

theorem dictLookup_dictUpdate (d d2 : Dict) (k : String)
    (hnd : (d2.map Prod.fst).Nodup) :
    dictLookup (dictUpdate d d2) k =
      match dictLookup d2 k with
      | some v => some v
      | none => dictLookup d k := by
  induction d2 generalizing d with
  | nil => simp [dictUpdate, dictLookup]
  | cons kv rest ih =>
    obtain ⟨a, b⟩ := kv
    simp only [List.map_cons, List.nodup_cons] at hnd
    have step : dictUpdate d ((a, b) :: rest) = dictUpdate (dictSet d a b) rest := rfl
    rw [step, ih _ hnd.2]
    by_cases h : a = k
    · subst h
      have hnone : dictLookup rest a = none := dictLookup_eq_none rest a hnd.1
      simp [dictLookup, hnone, dictLookup_dictSet]
    · have h1 : ¬ a = k := h
      cases hrest : dictLookup rest k <;>
        simp [dictLookup, h1, hrest, dictLookup_dictSet]

/-- The default `edge_data` dict of a fresh `EdgeItem`
(`{"type": 1, "Kd": 1.0, "n": 1.0}`). -/
def default_edge_data : Dict :=
  [("type", AttrVal.int 1), ("Kd", AttrVal.rat 1), ("n", AttrVal.rat 1)]

/-! ## Nodes and the snap resolver (`GraphScene.find_nearest_node`) -/

/-- A `NodeItem` as seen by the scene geometry: an id standing for Python
object identity, the item position set by `setPos`, and the circle
diameter (default 50 in the source). -/
structure SNode where
  nid : Nat
  x : ℚ
  y : ℚ
  diameter : ℚ
deriving DecidableEq

/-- Center of a node circle: `item.x() + item.diameter/2` in both axes. -/
def node_center (n : SNode) : ℚ × ℚ := (n.x + n.diameter / 2, n.y + n.diameter / 2)

/-- Squared Euclidean distance; the source compares
`math.hypot dx dy < bound`, which for non-negative `bound` is equivalent
to `dx^2 + dy^2 < bound^2`. -/
def distSq (a b : ℚ × ℚ) : ℚ := (a.1 - b.1) ^ 2 + (a.2 - b.2) ^ 2

/-- `GraphScene.SNAP_DISTANCE` (40), squared. -/
def snapSq : ℚ := 40 ^ 2

/-- The loop of `find_nearest_node`: `closest_node`/`closest_dist`
accumulators, `closest_dist` starting at `SNAP_DISTANCE`, updated whenever
a strictly closer node is seen. -/
def find_go (p : ℚ × ℚ) : List SNode → Option SNode → ℚ → Option SNode
  | [], best, _ => best
  | n :: rest, best, bd =>
    if distSq p (node_center n) < bd then find_go p rest (some n) (distSq p (node_center n))
    else find_go p rest best bd

/-- `GraphScene.find_nearest_node(pos)`: scan every `NodeItem` in the scene,
return the one whose center is strictly nearer than `SNAP_DISTANCE`
(tracking the running minimum), else `None`. -/
def find_nearest_node (nodes : List SNode) (p : ℚ × ℚ) : Option SNode :=
  find_go p nodes none snapSq

theorem find_go_spec (p : ℚ × ℚ) (l : List SNode) (best : Option SNode) (bd : ℚ)
    (hb : (best = none ∧ bd = snapSq) ∨
      (∃ b, best = some b ∧ distSq p (node_center b) = bd ∧ bd < snapSq)) :
    (find_go p l best bd = none →
       best = none ∧ bd = snapSq ∧ ∀ m ∈ l, bd ≤ distSq p (node_center m)) ∧
    (∀ n, find_go p l best bd = some n →
       (n ∈ l ∨ best = some n) ∧ distSq p (node_center n) < snapSq ∧
       distSq p (node_center n) ≤ bd ∧
       ∀ m ∈ l, distSq p (node_center n) ≤ distSq p (node_center m)) := by
  induction l generalizing best bd with
  | nil =>
    refine ⟨fun h => ?_, fun n h => ?_⟩
    · rcases hb with ⟨h1, h2⟩ | ⟨b, h1, _, _⟩
      · exact ⟨h1, h2, by simp⟩
      · rw [find_go] at h; rw [h] at h1; exact absurd h1 (by simp)
    · rw [find_go] at h
      rcases hb with ⟨h1, _⟩ | ⟨b, h1, h2, h3⟩
      · rw [h] at h1; exact absurd h1 (by simp)
      · rw [h] at h1
        injection h1 with hnb
        subst hnb
        exact ⟨Or.inr h, by rw [h2]; exact h3, le_of_eq h2, by simp⟩
  | cons hd tl ih =>
    have hbd_le : bd ≤ snapSq := by
      rcases hb with ⟨_, h2⟩ | ⟨b, _, _, h3⟩
      · exact le_of_eq h2
      · exact le_of_lt h3
    by_cases hlt : distSq p (node_center hd) < bd
    · have hb2 : ((some hd : Option SNode) = none ∧ distSq p (node_center hd) = snapSq) ∨
          (∃ b, (some hd : Option SNode) = some b ∧
            distSq p (node_center b) = distSq p (node_center hd) ∧
            distSq p (node_center hd) < snapSq) :=
        Or.inr ⟨hd, rfl, rfl, lt_of_lt_of_le hlt hbd_le⟩
      have ihh := ih (some hd) (distSq p (node_center hd)) hb2
      refine ⟨fun h => ?_, fun n h => ?_⟩
      · rw [find_go, if_pos hlt] at h
        exact absurd (ihh.1 h).1 (by simp)
      · rw [find_go, if_pos hlt] at h
        obtain ⟨hmem, hstrict, hle, hmin⟩ := ihh.2 n h
        have hn_le : distSq p (node_center n) ≤ distSq p (node_center hd) := hle
        refine ⟨?_, hstrict, le_of_lt (lt_of_le_of_lt hn_le hlt), ?_⟩
        · rcases hmem with hm | hm
          · exact Or.inl (List.mem_cons_of_mem _ hm)
          · obtain rfl : hd = n := by injection hm
            exact Or.inl (List.mem_cons_self _ _)
        · intro m hm
          rcases List.mem_cons.mp hm with rfl | hm2
          · exact hn_le
          · exact hmin m hm2
    · have ihh := ih best bd hb
      refine ⟨fun h => ?_, fun n h => ?_⟩
      · rw [find_go, if_neg hlt] at h
        obtain ⟨h1, h2, h3⟩ := ihh.1 h
        refine ⟨h1, h2, fun m hm => ?_⟩
        rcases List.mem_cons.mp hm with rfl | hm2
        · exact le_of_not_lt hlt
        · exact h3 m hm2
      · rw [find_go, if_neg hlt] at h
        obtain ⟨hmem, hstrict, hle, hmin⟩ := ihh.2 n h
        refine ⟨?_, hstrict, hle, fun m hm => ?_⟩
        · rcases hmem with hm | hm
          · exact Or.inl (List.mem_cons_of_mem _ hm)
          · exact Or.inr hm
        · rcases List.mem_cons.mp hm with rfl | hm2
          · exact le_trans hle (le_of_not_lt hlt)
          · exact hmin m hm2

theorem find_nearest_none_iff (nodes : List SNode) (p : ℚ × ℚ) :
    find_nearest_node nodes p = none ↔
      ∀ m ∈ nodes, snapSq ≤ distSq p (node_center m) := by
  have hspec := find_go_spec p nodes none snapSq (Or.inl ⟨rfl, rfl⟩)
  constructor
  · intro h
    obtain ⟨_, h2, h3⟩ := hspec.1 h
    intro m hm
    exact h2 ▸ h3 m hm
  · intro h
    cases hres : find_nearest_node nodes p with
    | none => rfl
    | some n =>
      obtain ⟨hmem, hstrict, _, _⟩ := hspec.2 n hres
      rcases hmem with hm | hm
      · exact absurd hstrict (not_lt.mpr (h n hm))
      · exact absurd hm (by simp)

theorem find_nearest_some (nodes : List SNode) (p : ℚ × ℚ) (n : SNode)
    (h : find_nearest_node nodes p = some n) :
    n ∈ nodes ∧ distSq p (node_center n) < snapSq ∧
      ∀ m ∈ nodes, distSq p (node_center n) ≤ distSq p (node_center m) := by
  have hspec := find_go_spec p nodes none snapSq (Or.inl ⟨rfl, rfl⟩)
  obtain ⟨hmem, hstrict, _, hmin⟩ := hspec.2 n h
  rcases hmem with hm | hm
  · exact ⟨hm, hstrict, hmin⟩
  · exact absurd hm (by simp)

/-! ## The drafting state machine (`GraphScene` mouse handlers)

An `SEdge` is an `EdgeItem`: source node id, optional target node id
(`None` while the edge is a drafting transient), and its `edge_data`.
The `Scene` mirrors the mutable fields of `GraphScene`
(`edge_mode`, `temp_edge`, `source_node`, `pinned_node`) plus the set of
items currently in the scene; `next_eid` supplies the identity of the
next `EdgeItem` object to be allocated.  Only the pinning state is kept
for `mouseMoveEvent` (the `setLine` calls it performs are transient
rendering of the rubber-band line and are not part of the graph state). -/

structure SEdge where
  eid : Nat
  src : Nat
  tgt : Option Nat
  edata : Dict
deriving DecidableEq

structure Scene where
  edge_mode : Bool
  nodes : List SNode
  edges : List SEdge
  temp_edge : Option Nat
  source_node : Option Nat
  pinned_node : Option Nat
  next_eid : Nat
deriving DecidableEq

/-- `GraphScene.clear_pinned_node` (the pen restyling is presentational). -/
def clear_pinned_node (s : Scene) : Scene := { s with pinned_node := none }

/-- `GraphScene.handle_pinned_node` (highlighting is presentational). -/
def handle_pinned_node (s : Scene) (nid : Nat) : Scene := { s with pinned_node := some nid }

/-- `GraphScene.set_edge_mode`: when turning the mode off, remove any
partial edge from the scene and reset the drafting fields. -/
def set_edge_mode (s : Scene) (enabled : Bool) : Scene :=
  if enabled then { s with edge_mode := true }
  else
    { s with
      edge_mode := false
      edges :=
        match s.temp_edge with
        | some i => s.edges.filter (fun e => e.eid != i)
        | none => s.edges
      temp_edge := none
      source_node := none
      pinned_node := none }

/-- `GraphScene.mousePressEvent`.  `clicked` is `itemAt(event.scenePos())`
when that item is a `NodeItem` (its id), and `none` otherwise.  In edge
mode a press on a node records it as `source_node` and creates a fresh
transient `EdgeItem` with no target and default `edge_data`; any
previously active transient edge is neither removed nor finalized. -/
def mousePressEvent (s : Scene) (clicked : Option Nat) : Scene :=
  if s.edge_mode then
    match clicked with
    | some nid =>
      { s with
        source_node := some nid
        edges := ⟨s.next_eid, nid, none, default_edge_data⟩ :: s.edges
        temp_edge := some s.next_eid
        next_eid := s.next_eid + 1 }
    | none => s
  else s

/-- `GraphScene.mouseMoveEvent` during an active draft: run
`find_nearest_node` on the cursor position; pin the result when it is a
node other than the source (`nearest is not self.source_node`), else
clear the pin.  The `setLine` rubber-band update is presentational. -/
def mouseMoveEvent (s : Scene) (p : ℚ × ℚ) : Scene :=
  match s.edge_mode, s.temp_edge, s.source_node with
  | true, some _, some src =>
    match find_nearest_node s.nodes p with
    | some n => if n.nid = src then clear_pinned_node s else handle_pinned_node s n.nid
    | none => clear_pinned_node s
  | _, _, _ => s

/-- `EdgeItem.set_target_node` on the edge with identity `i`. -/
def set_target_node (edges : List SEdge) (i : Nat) (t : Nat) : List SEdge :=
  edges.map (fun e => if e.eid = i then { e with tgt := some t } else e)

/-- `GraphScene.mouseReleaseEvent` during an active draft: if a node other
than the source is pinned, finalize the transient edge by setting its
target (it stays in the scene as a persisted edge); otherwise remove it
from the scene.  Either way reset the drafting fields. -/
def mouseReleaseEvent (s : Scene) : Scene :=
  match s.edge_mode, s.temp_edge, s.source_node with
  | true, some i, some src =>
    let edges1 :=
      match s.pinned_node with
      | some pn =>
        if pn = src then s.edges.filter (fun e => e.eid != i)
        else set_target_node s.edges i pn
      | none => s.edges.filter (fun e => e.eid != i)
    { s with edges := edges1, temp_edge := none, source_node := none, pinned_node := none }
  | _, _, _ => s

theorem filter_ne_of_fresh (edges : List SEdge) (i : Nat)
    (h : ∀ e ∈ edges, e.eid < i) : edges.filter (fun e => e.eid != i) = edges := by
  induction edges with
  | nil => rfl
  | cons hd tl ih =>
    have h1 : hd.eid ≠ i := Nat.ne_of_lt (h hd (List.mem_cons_self _ _))
    have h2 : ∀ e ∈ tl, e.eid < i := fun e he => h e (List.mem_cons_of_mem _ he)
    simp [List.filter_cons, h1, ih h2]

theorem set_target_node_of_fresh (edges : List SEdge) (i t : Nat)
    (h : ∀ e ∈ edges, e.eid < i) : set_target_node edges i t = edges := by
  induction edges with
  | nil => rfl
  | cons hd tl ih =>
    have h1 : hd.eid ≠ i := Nat.ne_of_lt (h hd (List.mem_cons_self _ _))
    have h2 : ∀ e ∈ tl, e.eid < i := fun e he => h e (List.mem_cons_of_mem _ he)
    simp only [set_target_node, List.map_cons, if_neg h1]
    have := ih h2
    simp only [set_target_node] at this
    rw [this]

/-! ## Concrete scenes used by witnesses and counterexamples -/

/-- Node with center (0,0) (position (-25,-25), diameter 50). -/
def exNodeA : SNode := ⟨0, -25, -25, 50⟩

/-- Node with center (100,0). -/
def exNodeB : SNode := ⟨1, 75, -25, 50⟩

/-- Node with center (30,0). -/
def exNodeC : SNode := ⟨1, 5, -25, 50⟩

/-- Edge mode on, two nodes, no edges, no draft in progress. -/
def idleScene : Scene := ⟨true, [exNodeA, exNodeB], [], none, none, none, 0⟩

/-- A drafting session in progress from `exNodeA` (id 0), with `exNodeC`
(center (30,0)) also in the scene. -/
def draftSceneC3 : Scene :=
  ⟨true, [exNodeA, exNodeC], [⟨0, 0, none, default_edge_data⟩], some 0, some 0, none, 1⟩

theorem mousePress_on_node (s : Scene) (hm : s.edge_mode = true) (nid : Nat) :
    mousePressEvent s (some nid) =
      { s with
        source_node := some nid
        edges := ⟨s.next_eid, nid, none, default_edge_data⟩ :: s.edges
        temp_edge := some s.next_eid
        next_eid := s.next_eid + 1 } := by
  simp [mousePressEvent, hm]

/-- C2: `find_nearest_node` returns a node at minimum distance when that
minimum is strictly below the snap radius, `none` when no node is
strictly within the radius (so a node at distance exactly 40 is never
returned), and on the two-node example with centers (0,0) and (100,0)
the query (10,0) returns the node at (0,0) while (60,0) returns `none`.
Distances are compared squared (`hypot` is monotone). -/
theorem find_nearest_contract :
    (∀ (nodes : List SNode) (p : ℚ × ℚ) (n : SNode),
       find_nearest_node nodes p = some n →
         n ∈ nodes ∧ distSq p (node_center n) < snapSq ∧
         ∀ m ∈ nodes, distSq p (node_center n) ≤ distSq p (node_center m)) ∧
    (∀ (nodes : List SNode) (p : ℚ × ℚ),
       find_nearest_node nodes p = none ↔
         ∀ m ∈ nodes, snapSq ≤ distSq p (node_center m)) ∧
    (∀ (nodes : List SNode) (p : ℚ × ℚ) (n : SNode),
       distSq p (node_center n) = snapSq → find_nearest_node nodes p ≠ some n) ∧
    (find_nearest_node [exNodeA, exNodeB] (10, 0) = some exNodeA ∧
     find_nearest_node [exNodeA, exNodeB] (60, 0) = none) := by
  refine ⟨fun nodes p n h => find_nearest_some nodes p n h,
    fun nodes p => find_nearest_none_iff nodes p, fun nodes p n hdist h => ?_, ?_, ?_⟩
  · have := (find_nearest_some nodes p n h).2.1
    rw [hdist] at this
    exact lt_irrefl _ this
  · norm_num [find_nearest_node, find_go, distSq, node_center, snapSq, exNodeA, exNodeB]
  · norm_num [find_nearest_node, find_go, distSq, node_center, snapSq, exNodeA, exNodeB]

theorem find_nearest_contract_witness :
    exNodeA ∈ [exNodeA, exNodeB] ∧
    distSq (10, 0) (node_center exNodeA) < snapSq ∧
    distSq (10, 0) (node_center exNodeA) ≤ distSq (10, 0) (node_center exNodeB) := by
  have h := find_nearest_contract.1 [exNodeA, exNodeB] (10, 0) exNodeA
    (find_nearest_contract.2.2.2.1)
  exact ⟨h.1, h.2.1, h.2.2 exNodeB (by simp)⟩

/-- C1: drafting round-trip.  From an idle drafting state (edge mode on,
no active transient), press on node `A`, move to a point whose nearest
in-radius node is `B ≠ A`, release: exactly the one new edge `A → B`
with the default `edge_data` is added and no transient remains.  Moving
to a point with no node in radius instead leaves the scene's edges
unchanged. -/
theorem drafting_round_trip (s : Scene) (A B : Nat) (nB : SNode) (p q : ℚ × ℚ)
    (hmode : s.edge_mode = true) (htemp : s.temp_edge = none)
    (hsrc : s.source_node = none) (hpin : s.pinned_node = none)
    (hfresh : ∀ e ∈ s.edges, e.eid < s.next_eid)
    (hclean : ∀ e ∈ s.edges, e.tgt ≠ none) :
    (find_nearest_node s.nodes p = some nB → nB.nid = B → B ≠ A →
       (mouseReleaseEvent (mouseMoveEvent (mousePressEvent s (some A)) p)).edges
           = ⟨s.next_eid, A, some B, default_edge_data⟩ :: s.edges ∧
       (mouseReleaseEvent (mouseMoveEvent (mousePressEvent s (some A)) p)).temp_edge = none ∧
       ∀ e ∈ (mouseReleaseEvent (mouseMoveEvent (mousePressEvent s (some A)) p)).edges,
         e.tgt ≠ none) ∧
    (find_nearest_node s.nodes q = none →
       (mouseReleaseEvent (mouseMoveEvent (mousePressEvent s (some A)) q)).edges = s.edges ∧
       (mouseReleaseEvent (mouseMoveEvent (mousePressEvent s (some A)) q)).temp_edge = none) := by
  obtain ⟨em, nodes, edges, te, sn, pn, ne⟩ := s
  dsimp only at hmode htemp hsrc hpin hfresh hclean ⊢
  subst hmode; subst htemp; subst hsrc; subst hpin
  have hpress : mousePressEvent ⟨true, nodes, edges, none, none, none, ne⟩ (some A)
      = ⟨true, nodes, ⟨ne, A, none, default_edge_data⟩ :: edges, some ne, some A, none, ne + 1⟩ :=
    rfl
  rw [hpress]
  constructor
  · intro hfind hB hBA
    have hmv : mouseMoveEvent
        ⟨true, nodes, ⟨ne, A, none, default_edge_data⟩ :: edges, some ne, some A, none, ne + 1⟩ p
        = ⟨true, nodes, ⟨ne, A, none, default_edge_data⟩ :: edges, some ne, some A, some B, ne + 1⟩ := by
      simp only [mouseMoveEvent, hfind, hB]
      rw [if_neg hBA]
      rfl
    rw [hmv]
    have hrel : mouseReleaseEvent
        ⟨true, nodes, ⟨ne, A, none, default_edge_data⟩ :: edges, some ne, some A, some B, ne + 1⟩
        = ⟨true, nodes, ⟨ne, A, some B, default_edge_data⟩ :: edges, none, none, none, ne + 1⟩ := by
      simp only [mouseReleaseEvent]
      rw [if_neg hBA]
      have hset : set_target_node (⟨ne, A, none, default_edge_data⟩ :: edges) ne B
          = ⟨ne, A, some B, default_edge_data⟩ :: edges := by
        simp only [set_target_node, List.map_cons, if_pos rfl]
        have hrest := set_target_node_of_fresh edges ne B hfresh
        simp only [set_target_node] at hrest
        rw [hrest]
        simp
      rw [hset]
    rw [hrel]
    refine ⟨rfl, rfl, ?_⟩
    intro e he
    rcases List.mem_cons.mp he with rfl | he2
    · simp
    · exact hclean e he2
  · intro hnone
    have hmv : mouseMoveEvent
        ⟨true, nodes, ⟨ne, A, none, default_edge_data⟩ :: edges, some ne, some A, none, ne + 1⟩ q
        = ⟨true, nodes, ⟨ne, A, none, default_edge_data⟩ :: edges, some ne, some A, none, ne + 1⟩ := by
      simp only [mouseMoveEvent, hnone]
      rfl
    rw [hmv]
    have hrel : mouseReleaseEvent
        ⟨true, nodes, ⟨ne, A, none, default_edge_data⟩ :: edges, some ne, some A, none, ne + 1⟩
        = ⟨true, nodes, (⟨ne, A, none, default_edge_data⟩ :: edges).filter
            (fun e => e.eid != ne), none, none, none, ne + 1⟩ := rfl
    rw [hrel]
    have hfilter : (⟨ne, A, none, default_edge_data⟩ :: edges).filter
        (fun e => e.eid != ne) = edges := by
      rw [List.filter_cons]
      simp only [bne_self_eq_false, Bool.false_eq_true, if_false]
      exact filter_ne_of_fresh edges ne hfresh
    exact ⟨hfilter, rfl⟩

theorem drafting_round_trip_witness :
    (mouseReleaseEvent (mouseMoveEvent (mousePressEvent idleScene (some 0)) ((90 : ℚ), 0))).edges
        = [⟨0, 0, some 1, default_edge_data⟩] ∧
    (mouseReleaseEvent (mouseMoveEvent (mousePressEvent idleScene (some 0)) ((200 : ℚ), 200))).edges
        = [] := by
  have h := drafting_round_trip idleScene 0 1 exNodeB (90, 0) (200, 200)
    rfl rfl rfl rfl (by simp [idleScene]) (by simp [idleScene])
  have hfind : find_nearest_node idleScene.nodes (90, 0) = some exNodeB := by
    norm_num [idleScene, find_nearest_node, find_go, distSq, node_center, snapSq, exNodeA, exNodeB]
  have hnone : find_nearest_node idleScene.nodes (200, 200) = none := by
    norm_num [idleScene, find_nearest_node, find_go, distSq, node_center, snapSq, exNodeA, exNodeB]
  exact ⟨(h.1 hfind rfl (by decide)).1, (h.2 hnone).1⟩

/-- C3 counterexample: the source node is NOT excluded from the
`find_nearest_node` scan.  In `draftSceneC3` the draft source is node 0
(center (0,0)) and node `exNodeC` (id 1, center (30,0)) is strictly
within the snap radius of the cursor point (10,0) and differs from the
source; the claim therefore predicts `pinned_node = some 1` after the
move, but because the raw nearest node is the source itself the handler
unpins instead (`pinned_node = none`). -/
theorem move_does_not_exclude_source :
    distSq (10, 0) (node_center exNodeC) < snapSq ∧
    exNodeC.nid ≠ 0 ∧ exNodeC ∈ draftSceneC3.nodes ∧
    (mouseMoveEvent draftSceneC3 (10, 0)).pinned_node = none := by
  have hfind : find_nearest_node [exNodeA, exNodeC] (10, 0) = some exNodeA := by
    norm_num [find_nearest_node, find_go, distSq, node_center, snapSq, exNodeA, exNodeC]
  refine ⟨by norm_num [distSq, node_center, exNodeC, snapSq], by decide,
    by simp [draftSceneC3], ?_⟩
  simp only [draftSceneC3, mouseMoveEvent]
  rw [hfind]
  simp [exNodeA, clear_pinned_node]

/-- C3 amended: during a draft from source `src`, a move to `p` pins the
node returned by the un-excluded scan `find_nearest_node`, and only if
that node differs from the source; when the nearest in-radius node is
the source itself, nothing is pinned even if another node lies strictly
within the snap radius. -/
theorem move_pin_characterization (s : Scene) (i src : Nat) (p : ℚ × ℚ)
    (hmode : s.edge_mode = true) (htemp : s.temp_edge = some i)
    (hsrc : s.source_node = some src) :
    (mouseMoveEvent s p).pinned_node =
      match find_nearest_node s.nodes p with
      | some n => if n.nid = src then none else some n.nid
      | none => none := by
  obtain ⟨em, nodes, edges, te, sn, pn, ne⟩ := s
  dsimp only at hmode htemp hsrc ⊢
  subst hmode; subst htemp; subst hsrc
  simp only [mouseMoveEvent]
  cases hfind : find_nearest_node nodes p with
  | none => rfl
  | some n =>
    by_cases h : n.nid = src <;>
      simp [h, clear_pinned_node, handle_pinned_node]

theorem move_pin_characterization_witness :
    (mouseMoveEvent draftSceneC3 (29, 0)).pinned_node =
      match find_nearest_node draftSceneC3.nodes (29, 0) with
      | some n => if n.nid = 0 then none else some n.nid
      | none => none :=
  move_pin_characterization draftSceneC3 0 0 (29, 0) rfl rfl rfl

/-- C9 counterexample: with edge mode on, a press on node 0 followed by a
second press on node 1 (without any release) leaves TWO edges with an
unset target in the scene — the abandoned first transient and the new
one — contradicting the claim that a `begin` during an active session
is ignored or rejected and never yields two concurrent transient
edges. -/
theorem double_press_two_transients :
    ((mousePressEvent (mousePressEvent idleScene (some 0)) (some 1)).edges.filter
        (fun e => e.tgt.isNone)).length = 2 ∧
    (mousePressEvent (mousePressEvent idleScene (some 0)) (some 1)).temp_edge ≠
      (mousePressEvent idleScene (some 0)).temp_edge := by
  constructor
  · rfl
  · decide

/-- C9 amended: `mousePressEvent` does not check for an active draft.  A
press on a node while a transient edge is live starts a new drafting
session: the new transient becomes `temp_edge`, while the old transient
edge stays in the scene with its target unset (neither finalized nor
removed), so two distinct unset-target edges coexist. -/
theorem begin_while_active (s : Scene) (i n : Nat) (e : SEdge)
    (hmode : s.edge_mode = true) (htemp : s.temp_edge = some i)
    (he : e ∈ s.edges) (het : e.tgt = none) (hfresh : e.eid < s.next_eid) :
    (mousePressEvent s (some n)).temp_edge = some s.next_eid ∧
    e ∈ (mousePressEvent s (some n)).edges ∧
    (⟨s.next_eid, n, none, default_edge_data⟩ : SEdge) ∈ (mousePressEvent s (some n)).edges ∧
    (⟨s.next_eid, n, none, default_edge_data⟩ : SEdge) ≠ e := by
  rw [mousePress_on_node s hmode n]
  refine ⟨rfl, List.mem_cons_of_mem _ he, List.mem_cons_self _ _, ?_⟩
  intro hcontra
  have : s.next_eid = e.eid := congrArg SEdge.eid hcontra
  exact absurd this (Nat.ne_of_gt hfresh)

theorem begin_while_active_witness :
    (mousePressEvent (mousePressEvent idleScene (some 0)) (some 1)).temp_edge = some 1 ∧
    (⟨0, 0, none, default_edge_data⟩ : SEdge) ∈
      (mousePressEvent (mousePressEvent idleScene (some 0)) (some 1)).edges ∧
    (⟨1, 1, none, default_edge_data⟩ : SEdge) ∈
      (mousePressEvent (mousePressEvent idleScene (some 0)) (some 1)).edges := by
  have h := begin_while_active (mousePressEvent idleScene (some 0)) 0 1
    ⟨0, 0, none, default_edge_data⟩ rfl rfl (by simp [idleScene, mousePressEvent])
    rfl (by decide)
  exact ⟨h.1, h.2.1, h.2.2.1⟩

/-! ## Cascade deletion (`MainWindow.delete_selected_node` and friends)

Model of the node/edge lifecycle operations acting on the scene:
`add_*_node` (adding a `NodeItem`), edge creation (`EdgeItem.__init__` +
`set_target_node`, which register the edge in `NodeItem.edges` of both
endpoints), `delete_selected_edge` (which removes the `EdgeItem` from
the scene but does NOT detach it from `NodeItem.edges`, exactly as in
the source), and `delete_selected_node` (which removes every edge in
the node's `edges` list from the scene, then the node).  `reg` is the
per-node `NodeItem.edges` registry, keyed by node id; edge ids stand
for `EdgeItem` object identity. -/

structure GEdge where
  eid : Nat
  src : Nat
  tgt : Nat
deriving DecidableEq

structure GState where
  nodes : List Nat
  edges : List GEdge
  reg : Nat → List Nat

inductive GOp where
  | addNode (nid : Nat)
  | addEdge (eid a b : Nat)
  | removeEdge (eid : Nat)
  | removeNode (nid : Nat)

/-- One scene operation.
* `addNode`: a fresh `NodeItem` starts with an empty `edges` list (the
  guard models object freshness: ids stand for object identity).
* `addEdge`: a persisted edge is only ever created between two nodes in
  the scene (drafting finalization and import both guarantee this); the
  `EdgeItem` registers itself with its source and its target
  (`NodeItem.add_edge`, which does not duplicate an existing entry, so a
  self loop registers once).
* `removeEdge` (`delete_selected_edge`): `scene.removeItem` only; the
  registries keep a stale entry, as in the source.
* `removeNode` (`delete_selected_node`): `for edge in item.edges:
  scene.removeItem(edge)` then remove the node. -/
def gstep (s : GState) (op : GOp) : GState :=
  match op with
  | .addNode nid =>
    if nid ∈ s.nodes then s
    else { s with nodes := nid :: s.nodes, reg := fun x => if x = nid then [] else s.reg x }
  | .addEdge eid a b =>
    if a ∈ s.nodes ∧ b ∈ s.nodes then
      { s with
        edges := ⟨eid, a, b⟩ :: s.edges
        reg := fun x => if x = a ∨ x = b then eid :: s.reg x else s.reg x }
    else s
  | .removeEdge eid => { s with edges := s.edges.filter (fun e => e.eid != eid) }
  | .removeNode nid =>
    { s with
      nodes := s.nodes.filter (fun m => m != nid)
      edges := s.edges.filter (fun e => !((s.reg nid).contains e.eid)) }

def grun (ops : List GOp) : GState :=
  ops.foldl gstep { nodes := [], edges := [], reg := fun _ => [] }

/-- Strengthened invariant: endpoints live, and every live edge is
registered with both endpoints. -/
def ginv (s : GState) : Prop :=
  ∀ e ∈ s.edges, e.src ∈ s.nodes ∧ e.tgt ∈ s.nodes ∧
    e.eid ∈ s.reg e.src ∧ e.eid ∈ s.reg e.tgt

theorem ginv_step (s : GState) (op : GOp) (h : ginv s) : ginv (gstep s op) := by
  cases op with
  | addNode nid =>
    by_cases hmem : nid ∈ s.nodes
    · simpa [gstep, hmem] using h
    · intro e he
      simp only [gstep, if_neg hmem] at he
      obtain ⟨h1, h2, h3, h4⟩ := h e he
      have hsrc : ¬ e.src = nid := fun hh => hmem (hh ▸ h1)
      have htgt : ¬ e.tgt = nid := fun hh => hmem (hh ▸ h2)
      simp only [gstep, if_neg hmem]
      exact ⟨List.mem_cons_of_mem _ h1, List.mem_cons_of_mem _ h2,
        by simp [hsrc, h3], by simp [htgt, h4]⟩
  | addEdge eid a b =>
    by_cases hmem : a ∈ s.nodes ∧ b ∈ s.nodes
    · intro e he
      simp only [gstep, if_pos hmem] at he
      simp only [gstep, if_pos hmem]
      rcases List.mem_cons.mp he with rfl | he2
      · exact ⟨hmem.1, hmem.2, by simp, by simp⟩
      · obtain ⟨h1, h2, h3, h4⟩ := h e he2
        refine ⟨h1, h2, ?_, ?_⟩
        · by_cases hc : e.src = a ∨ e.src = b <;> simp [hc, h3]
        · by_cases hc : e.tgt = a ∨ e.tgt = b <;> simp [hc, h4]
    · simpa [gstep, hmem] using h
  | removeEdge eid =>
    intro e he
    simp only [gstep] at he
    exact h e (List.mem_of_mem_filter he)
  | removeNode nid =>
    intro e he
    simp only [gstep] at he
    have hmem := List.mem_of_mem_filter he
    have hkeep := List.of_mem_filter he
    obtain ⟨h1, h2, h3, h4⟩ := h e hmem
    have hkeep2 : e.eid ∉ s.reg nid := by
      simp only [List.contains, Bool.not_eq_true', List.elem_eq_mem,
        decide_eq_false_iff_not] at hkeep
      exact hkeep
    have hsrc : e.src ≠ nid := fun hh => hkeep2 (hh ▸ h3)
    have htgt : e.tgt ≠ nid := fun hh => hkeep2 (hh ▸ h4)
    simp only [gstep]
    exact ⟨List.mem_filter.mpr ⟨h1, by simp [hsrc]⟩,
      List.mem_filter.mpr ⟨h2, by simp [htgt]⟩, h3, h4⟩

/-- C4: after any sequence of add-node / add-edge / remove-edge /
remove-node operations starting from the empty scene, every edge in the
scene has both endpoints in the scene: `delete_selected_node` removes
every edge registered with the deleted node before removing the node,
and every live edge is so registered. -/
theorem no_dangling_edges (ops : List GOp) :
    ∀ e ∈ (grun ops).edges, e.src ∈ (grun ops).nodes ∧ e.tgt ∈ (grun ops).nodes := by
  have hinv : ginv (grun ops) := by
    rw [grun]
    induction ops using List.reverseRecOn with
    | nil => intro e he; exact absurd he (by simp)
    | append_singleton ops op ih =>
      rw [List.foldl_append, List.foldl_cons, List.foldl_nil]
      exact ginv_step _ op ih
  exact fun e he => ⟨(hinv e he).1, (hinv e he).2.1⟩

theorem no_dangling_edges_witness :
    (⟨7, 0, 1⟩ : GEdge) ∈ (grun [.addNode 0, .addNode 1, .addEdge 7 0 1]).edges ∧
    (0 : Nat) ∈ (grun [.addNode 0, .addNode 1, .addEdge 7 0 1]).nodes ∧
    (1 : Nat) ∈ (grun [.addNode 0, .addNode 1, .addEdge 7 0 1]).nodes := by
  have hmem : (⟨7, 0, 1⟩ : GEdge) ∈ (grun [.addNode 0, .addNode 1, .addEdge 7 0 1]).edges := by
    simp [grun, gstep]
  have h := no_dangling_edges [.addNode 0, .addNode 1, .addEdge 7 0 1] ⟨7, 0, 1⟩ hmem
  exact ⟨hmem, h.1, h.2⟩

/-! ## Persistence (`MainWindow.export_nx_graph` / `import_nx_graph`)
and graph assembly (`MainWindow.build_grn`)

A `PNode` is a `NodeItem` as the persistence code sees it: its
`node_data` dict and its scene position.  A `PEdge` references its
endpoint nodes; because export and import identify nodes by
`node_data['label']` we record the endpoint labels (node identity and
label coincide for well-formed scenes, whose labels are unique).  A
transient drafting edge has `tgt = none`.  `NXGraph` is the attributed
digraph value handed to / produced by `networkx` (`read_graphml` /
`write_graphml` are external and treated as the identity on this
value). -/

structure PNode where
  data : Dict
  x : ℚ
  y : ℚ
deriving DecidableEq

structure PEdge where
  src : String
  tgt : Option String
  edata : Dict
deriving DecidableEq

structure PScene where
  nodes : List PNode
  edges : List PEdge
deriving DecidableEq

structure NXGraph where
  gnodes : List (String × Dict)
  gedges : List (String × String × Dict)
deriving DecidableEq

/-- `item.node_data['label']` (export and import both key nodes by it).
Well-formed scenes always carry a string label. -/
def nodeLabel (n : PNode) : String :=
  match dictLookup n.data "label" with
  | some (AttrVal.str l) => l
  | _ => ""

/-- Export of one node: `node_data.copy()` with `x`/`y` assigned from the
item position, keyed by the label. -/
def export_node (n : PNode) : String × Dict :=
  (nodeLabel n, dictSet (dictSet n.data "x" (AttrVal.rat n.x)) "y" (AttrVal.rat n.y))

/-- `nx.DiGraph.add_node(nid, **d)`: when a node with this id already
exists it is MERGED — the existing attribute dict is updated with `d`
in place — otherwise the node is appended in insertion order.  A
`DiGraph` never holds two nodes with the same id. -/
def add_node_nx (gn : List (String × Dict)) (nid : String) (d : Dict) :
    List (String × Dict) :=
  if gn.any (fun p => p.1 == nid) then
    gn.map (fun p => if p.1 = nid then (nid, dictUpdate p.2 d) else p)
  else gn ++ [(nid, d)]

/-- `nx.DiGraph.add_edge(u, v, **d)`: when the edge `(u, v)` already
exists it is MERGED — the existing attribute dict is updated with `d`
in place — otherwise the edge is appended in insertion order.  A
`DiGraph` never holds two parallel edges with the same endpoints. -/
def add_edge_nx (ge : List (String × String × Dict)) (u v : String) (d : Dict) :
    List (String × String × Dict) :=
  if ge.any (fun t => t.1 == u && t.2.1 == v) then
    ge.map (fun t => if t.1 = u ∧ t.2.1 = v then (u, v, dictUpdate t.2.2 d) else t)
  else ge ++ [(u, v, d)]

/-- The node loop of `export_nx_graph`:
`graph.add_node(item.node_data['label'], **node_data)` per `NodeItem`,
accumulated into the digraph under construction. -/
def export_nodes : List PNode → List (String × Dict) → List (String × Dict)
  | [], acc => acc
  | n :: rest, acc =>
    export_nodes rest (add_node_nx acc (export_node n).1 (export_node n).2)

/-- The edge loop of `export_nx_graph`:
`graph.add_edge(source.label, target.label, **edge_data)` per
`EdgeItem`, accumulated into the digraph under construction.  An edge
with an unset target makes the whole export fail
(`item.target_node.node_data` dereferences `None`, raising before
anything is written). -/
def export_edges : List PEdge → List (String × String × Dict) →
    Option (List (String × String × Dict))
  | [], acc => some acc
  | e :: rest, acc =>
    match e.tgt with
    | some t => export_edges rest (add_edge_nx acc e.src t e.edata)
    | none => none

/-- `MainWindow.export_nx_graph` (the file dialog and `write_graphml`
are external; the produced attributed digraph is the result). -/
def export_nx_graph (s : PScene) : Option NXGraph :=
  (export_edges s.edges []).map (fun ge => ⟨export_nodes s.nodes [], ge⟩)

/-- Numeric reading of an attribute used as a coordinate
(`setPos(x, y)` on the value of `data.get('x', 0)`). -/
def ratOf : AttrVal → ℚ
  | AttrVal.rat q => q
  | AttrVal.int i => (i : ℚ)
  | AttrVal.str _ => 0

/-- Import of one graph node: `node_data = {"label": node, "node_type":
data.get('node_type', 'normal')}` then `node_data.update(data)`, with the
item placed at `(data.get('x', 0), data.get('y', 0))`. -/
def import_node (p : String × Dict) : PNode :=
  let node_type := (dictLookup p.2 "node_type").getD (AttrVal.str "normal")
  { data := dictUpdate [("label", AttrVal.str p.1), ("node_type", node_type)] p.2
    x := ratOf ((dictLookup p.2 "x").getD (AttrVal.rat 0))
    y := ratOf ((dictLookup p.2 "y").getD (AttrVal.rat 0)) }

/-- Import of the edge list: each endpoint is located among the created
`NodeItem`s by label with `next(...)`, which fails when no node
matches; the created `EdgeItem` has the default `edge_data` updated
with the file's edge attributes. -/
def import_edges (ns : List PNode) : List (String × String × Dict) → Option (List PEdge)
  | [] => some []
  | t :: rest =>
    match ns.find? (fun n => nodeLabel n == t.1), ns.find? (fun n => nodeLabel n == t.2.1) with
    | some _, some _ =>
      (import_edges ns rest).map
        (fun es => (⟨t.1, some t.2.1, dictUpdate default_edge_data t.2.2⟩ : PEdge) :: es)
    | _, _ => none

/-- `MainWindow.import_nx_graph` on the attributed digraph read from the
file (the scene is cleared and rebuilt from scratch; the resulting
scene is the value returned here). -/
def import_nx_graph (g : NXGraph) : Option PScene :=
  let ns := g.gnodes.map import_node
  (import_edges ns g.gedges).map (fun es => ⟨ns, es⟩)

/-- `item.node_data.get('node_type') == t`. -/
def isType (n : PNode) (t : String) : Bool :=
  decide (dictLookup n.data "node_type" = some (AttrVal.str t))

/-- A regulator record built by `build_grn` for an incoming edge of a
gene node: `{'name': src_label, 'type': ..., 'Kd': ..., 'n': ...}`. -/
structure Regulator where
  name : String
  rtype : AttrVal
  Kd : AttrVal
  n : AttrVal
deriving DecidableEq

/-- The arguments of one `my_grn.add_gene(alpha, regulators, products,
logic_type)` call. -/
structure GeneDesc where
  alpha : AttrVal
  regulators : List Regulator
  products : List String
  logic_type : AttrVal
deriving DecidableEq

/-- The `grn` object assembled by `build_grn`: input species labels,
output species `(label, deg_rate)`, and one `GeneDesc` per gene node. -/
structure GrnDesc where
  inputs : List String
  species : List (String × Option AttrVal)
  genes : List GeneDesc
deriving DecidableEq

/-- The edge scan of `build_grn` for one gene node with label `gLabel`:
an outgoing edge contributes its target's label to `products`
(dereferencing the target, which fails when the target is unset), an
incoming edge contributes a regulator record (`None == geneNodes` is
false, so an unset-target edge never matches the `elif`). -/
def gene_scan (gLabel : String) : List PEdge → Option (List Regulator × List String)
  | [] => some ([], [])
  | e :: rest =>
    if e.src = gLabel then
      match e.tgt with
      | none => none
      | some t => (gene_scan gLabel rest).map (fun rp => (rp.1, t :: rp.2))
    else if e.tgt = some gLabel then
      (gene_scan gLabel rest).map (fun rp =>
        ({ name := e.src
           rtype := (dictLookup e.edata "type").getD (AttrVal.int 1)
           Kd := (dictLookup e.edata "Kd").getD (AttrVal.rat 1)
           n := (dictLookup e.edata "n").getD (AttrVal.rat 1) } :: rp.1, rp.2))
    else gene_scan gLabel rest

/-- The gene loop of `build_grn`. -/
def build_genes (edges : List PEdge) : List PNode → Option (List GeneDesc)
  | [] => some []
  | g :: rest =>
    match gene_scan (nodeLabel g) edges with
    | none => none
    | some rp =>
      (build_genes edges rest).map (fun gs =>
        ({ alpha := (dictLookup g.data "alpha").getD (AttrVal.int 10)
           regulators := rp.1
           products := rp.2
           logic_type := (dictLookup g.data "logic_type").getD (AttrVal.str "and") } : GeneDesc)
        :: gs)

/-- `MainWindow.build_grn`: input species, output species with their
`deg_rate` (`.get`, so `None` when absent), then one `add_gene` per
gene node from the edge scan. -/
def build_grn (s : PScene) : Option GrnDesc :=
  let inputs := (s.nodes.filter (fun n => isType n "input")).map nodeLabel
  let species := (s.nodes.filter (fun n => isType n "output")).map
    (fun n => (nodeLabel n, dictLookup n.data "deg_rate"))
  (build_genes s.edges (s.nodes.filter (fun n => isType n "gene"))).map
    (fun gs => ⟨inputs, species, gs⟩)

theorem mem_keys_dictSet (d : Dict) (k k2 : String) (v : AttrVal) :
    k2 ∈ (dictSet d k v).map Prod.fst ↔ k2 = k ∨ k2 ∈ d.map Prod.fst := by
  induction d with
  | nil => simp [dictSet]
  | cons kv rest ih =>
    obtain ⟨a, b⟩ := kv
    by_cases hak : a = k
    · subst hak
      have hstep : dictSet ((a, b) :: rest) a v = (a, v) :: rest := by simp [dictSet]
      rw [hstep]
      simp only [List.map_cons, List.mem_cons]
      tauto
    · simp only [dictSet, if_neg hak, List.map_cons, List.mem_cons, ih]
      tauto

theorem dictSet_keys_nodup (d : Dict) (k : String) (v : AttrVal)
    (h : (d.map Prod.fst).Nodup) : ((dictSet d k v).map Prod.fst).Nodup := by
  induction d with
  | nil => simp [dictSet]
  | cons kv rest ih =>
    obtain ⟨a, b⟩ := kv
    simp only [List.map_cons, List.nodup_cons] at h
    by_cases hak : a = k
    · subst hak
      have hstep : dictSet ((a, b) :: rest) a v = (a, v) :: rest := by simp [dictSet]
      rw [hstep]
      simp only [List.map_cons, List.nodup_cons]
      exact h
    · simp only [dictSet, if_neg hak, List.map_cons, List.nodup_cons]
      refine ⟨?_, ih h.2⟩
      rw [mem_keys_dictSet]
      push_neg
      exact ⟨hak, h.1⟩

/-- The attribute-for-attribute relation between a node and its
round-tripped image: position preserved, the position also materialized
as `x`/`y` attributes by the export, and every other attribute (label,
kind, kind-specific and extra attributes alike) preserved under
lookup. -/
def node_roundtrip (n n2 : PNode) : Prop :=
  n2.x = n.x ∧ n2.y = n.y ∧
  dictLookup n2.data "x" = some (AttrVal.rat n.x) ∧
  dictLookup n2.data "y" = some (AttrVal.rat n.y) ∧
  ∀ k, k ≠ "x" → k ≠ "y" → dictLookup n2.data k = dictLookup n.data k

/-- The relation between an edge and its round-tripped image: endpoints
and every attribute preserved. -/
def edge_roundtrip (e e2 : PEdge) : Prop :=
  e2.src = e.src ∧ e2.tgt = e.tgt ∧
  ∀ k, dictLookup e2.edata k = dictLookup e.edata k

/-- Well-formedness of a scene for the lossless round trip: every
`node_data` carries a label and a `node_type`, positions are not
shadowed by `x`/`y` attributes, dict keys and node labels are unique,
every edge's endpoints resolve to scene nodes (in particular no
transient edge is present), every `edge_data` carries the
`type`/`Kd`/`n` keys set at edge creation, and — beyond what the
editor's operations guarantee — no two edges share the same
(source, target) pair, since `nx.DiGraph.add_edge` merges parallel
duplicates (see the C5 counterexample). -/
def pwf (s : PScene) : Prop :=
  (∀ n ∈ s.nodes, (dictLookup n.data "label").isSome = true) ∧
  (∀ n ∈ s.nodes, (dictLookup n.data "node_type").isSome = true) ∧
  (∀ n ∈ s.nodes, dictLookup n.data "x" = none ∧ dictLookup n.data "y" = none) ∧
  (∀ n ∈ s.nodes, (n.data.map Prod.fst).Nodup) ∧
  (s.nodes.map nodeLabel).Nodup ∧
  (∀ e ∈ s.edges, ∃ n ∈ s.nodes, some (nodeLabel n) = e.tgt) ∧
  (∀ e ∈ s.edges, ∃ n ∈ s.nodes, nodeLabel n = e.src) ∧
  (∀ e ∈ s.edges, (dictLookup e.edata "type").isSome = true ∧
     (dictLookup e.edata "Kd").isSome = true ∧ (dictLookup e.edata "n").isSome = true) ∧
  (∀ e ∈ s.edges, (e.edata.map Prod.fst).Nodup) ∧
  (s.edges.map (fun e => (e.src, e.tgt))).Nodup

theorem node_import_export (n : PNode)
    (hlbl : (dictLookup n.data "label").isSome = true)
    (hnt : (dictLookup n.data "node_type").isSome = true)
    (hx : dictLookup n.data "x" = none) (hy : dictLookup n.data "y" = none)
    (hnd : (n.data.map Prod.fst).Nodup) :
    node_roundtrip n (import_node (export_node n)) := by
  have hdx : dictLookup (dictSet (dictSet n.data "x" (AttrVal.rat n.x)) "y"
      (AttrVal.rat n.y)) "x" = some (AttrVal.rat n.x) := by
    rw [dictLookup_dictSet, if_neg (by decide), dictLookup_dictSet, if_pos rfl]
  have hdy : dictLookup (dictSet (dictSet n.data "x" (AttrVal.rat n.x)) "y"
      (AttrVal.rat n.y)) "y" = some (AttrVal.rat n.y) := by
    rw [dictLookup_dictSet, if_pos rfl]
  have hdk : ∀ k, k ≠ "x" → k ≠ "y" →
      dictLookup (dictSet (dictSet n.data "x" (AttrVal.rat n.x)) "y"
        (AttrVal.rat n.y)) k = dictLookup n.data k := by
    intro k hkx hky
    rw [dictLookup_dictSet, if_neg (fun hh => hky hh.symm),
      dictLookup_dictSet, if_neg (fun hh => hkx hh.symm)]
  have hdnd : (((dictSet (dictSet n.data "x" (AttrVal.rat n.x)) "y"
      (AttrVal.rat n.y))).map Prod.fst).Nodup :=
    dictSet_keys_nodup _ _ _ (dictSet_keys_nodup _ _ _ hnd)
  have hupd := fun k => dictLookup_dictUpdate
    [("label", AttrVal.str (nodeLabel n)),
     ("node_type", (dictLookup (dictSet (dictSet n.data "x" (AttrVal.rat n.x)) "y"
        (AttrVal.rat n.y)) "node_type").getD (AttrVal.str "normal"))]
    (dictSet (dictSet n.data "x" (AttrVal.rat n.x)) "y" (AttrVal.rat n.y)) k hdnd
  refine ⟨?_, ?_, ?_, ?_, ?_⟩
  · show ratOf ((dictLookup (dictSet (dictSet n.data "x" (AttrVal.rat n.x)) "y"
      (AttrVal.rat n.y)) "x").getD (AttrVal.rat 0)) = n.x
    rw [hdx]
    rfl
  · show ratOf ((dictLookup (dictSet (dictSet n.data "x" (AttrVal.rat n.x)) "y"
      (AttrVal.rat n.y)) "y").getD (AttrVal.rat 0)) = n.y
    rw [hdy]
    rfl
  · show dictLookup (dictUpdate
      [("label", AttrVal.str (nodeLabel n)),
       ("node_type", (dictLookup (dictSet (dictSet n.data "x" (AttrVal.rat n.x)) "y"
          (AttrVal.rat n.y)) "node_type").getD (AttrVal.str "normal"))]
      (dictSet (dictSet n.data "x" (AttrVal.rat n.x)) "y" (AttrVal.rat n.y))) "x"
      = some (AttrVal.rat n.x)
    rw [hupd "x", hdx]
  · show dictLookup (dictUpdate
      [("label", AttrVal.str (nodeLabel n)),
       ("node_type", (dictLookup (dictSet (dictSet n.data "x" (AttrVal.rat n.x)) "y"
          (AttrVal.rat n.y)) "node_type").getD (AttrVal.str "normal"))]
      (dictSet (dictSet n.data "x" (AttrVal.rat n.x)) "y" (AttrVal.rat n.y))) "y"
      = some (AttrVal.rat n.y)
    rw [hupd "y", hdy]
  · intro k hkx hky
    show dictLookup (dictUpdate
      [("label", AttrVal.str (nodeLabel n)),
       ("node_type", (dictLookup (dictSet (dictSet n.data "x" (AttrVal.rat n.x)) "y"
          (AttrVal.rat n.y)) "node_type").getD (AttrVal.str "normal"))]
      (dictSet (dictSet n.data "x" (AttrVal.rat n.x)) "y" (AttrVal.rat n.y))) k
      = dictLookup n.data k
    rw [hupd k]
    rcases hcase : dictLookup (dictSet (dictSet n.data "x" (AttrVal.rat n.x)) "y"
        (AttrVal.rat n.y)) k with _ | v
    · rw [hdk k hkx hky] at hcase
      by_cases hkl : k = "label"
      · rw [hkl] at hcase
        rw [hcase] at hlbl
        exact absurd hlbl (by decide)
      · by_cases hknt : k = "node_type"
        · rw [hknt] at hcase
          rw [hcase] at hnt
          exact absurd hnt (by decide)
        · have h1 : ¬ ("label" : String) = k := fun hh => hkl hh.symm
          have h2 : ¬ ("node_type" : String) = k := fun hh => hknt hh.symm
          simp only [dictLookup, h1, h2, if_false]
          exact hcase.symm
    · rw [← hdk k hkx hky, hcase]

theorem export_nodes_eq (nodes : List PNode) (acc : List (String × Dict))
    (hdisj : ∀ x ∈ acc, ∀ n ∈ nodes, x.1 ≠ nodeLabel n)
    (hnd : (nodes.map nodeLabel).Nodup) :
    export_nodes nodes acc = acc ++ nodes.map export_node := by
  induction nodes generalizing acc with
  | nil => simp [export_nodes]
  | cons n rest ih =>
    have hndc : (∀ x ∈ rest, ¬ nodeLabel x = nodeLabel n)
        ∧ (rest.map nodeLabel).Nodup := by simpa using hnd
    have hany : ¬ acc.any (fun p => p.1 == (export_node n).1) = true := by
      intro hc
      obtain ⟨x, hx, hxp⟩ := List.any_eq_true.mp hc
      exact hdisj x hx n (List.mem_cons_self _ _) (by simpa using hxp)
    have hstep : add_node_nx acc (export_node n).1 (export_node n).2
        = acc ++ [export_node n] := by
      unfold add_node_nx
      rw [if_neg hany]
    rw [export_nodes, hstep, ih (acc ++ [export_node n]) ?_ hndc.2]
    · rw [List.append_assoc]
      rfl
    · intro x hx n2 hn2
      rcases List.mem_append.mp hx with hx1 | hx2
      · exact hdisj x hx1 n2 (List.mem_cons_of_mem _ hn2)
      · have hxe : x = export_node n := by simpa using hx2
        subst hxe
        intro hh
        exact hndc.1 n2 hn2 hh.symm

theorem export_edges_eq (edges : List PEdge) (acc : List (String × String × Dict))
    (htgt : ∀ e ∈ edges, e.tgt ≠ none)
    (hdisj : ∀ x ∈ acc, ∀ e ∈ edges, ¬ (x.1 = e.src ∧ some x.2.1 = e.tgt))
    (hnd : (edges.map (fun e => (e.src, e.tgt))).Nodup) :
    export_edges edges acc
      = some (acc ++ edges.map (fun e => (e.src, e.tgt.getD "", e.edata))) := by
  induction edges generalizing acc with
  | nil => simp [export_edges]
  | cons e rest ih =>
    have he := htgt e (List.mem_cons_self _ _)
    have hndc : (∀ x ∈ rest, x.src = e.src → ¬ x.tgt = e.tgt)
        ∧ (rest.map (fun e => (e.src, e.tgt))).Nodup := by simpa using hnd
    cases het : e.tgt with
    | none => exact absurd het he
    | some t =>
      have hany : ¬ acc.any (fun x => x.1 == e.src && x.2.1 == t) = true := by
        intro hc
        obtain ⟨x, hx, hxp⟩ := List.any_eq_true.mp hc
        simp only [Bool.and_eq_true, beq_iff_eq] at hxp
        exact hdisj x hx e (List.mem_cons_self _ _) ⟨hxp.1, by rw [hxp.2, het]⟩
      have hstep : add_edge_nx acc e.src t e.edata = acc ++ [(e.src, t, e.edata)] := by
        unfold add_edge_nx
        rw [if_neg hany]
      have hih := ih (acc ++ [(e.src, t, e.edata)])
        (fun x hx => htgt x (List.mem_cons_of_mem _ hx)) ?_ hndc.2
      · simp only [export_edges, het]
        rw [hstep, hih, List.append_assoc]
        simp [het]
      · intro x hx e2 he2
        rcases List.mem_append.mp hx with hx1 | hx2
        · exact hdisj x hx1 e2 (List.mem_cons_of_mem _ he2)
        · have hxe : x = (e.src, t, e.edata) := by simpa using hx2
          subst hxe
          rintro ⟨hs, ht2⟩
          refine hndc.1 e2 he2 ?_ ?_
          · exact hs.symm
          · rw [← ht2, het]

theorem import_edges_eq (ns : List PNode) (ge : List (String × String × Dict))
    (h : ∀ t ∈ ge, (ns.find? (fun n => nodeLabel n == t.1)).isSome = true ∧
                   (ns.find? (fun n => nodeLabel n == t.2.1)).isSome = true) :
    import_edges ns ge = some (ge.map (fun t =>
      (⟨t.1, some t.2.1, dictUpdate default_edge_data t.2.2⟩ : PEdge))) := by
  induction ge with
  | nil => rfl
  | cons t rest ih =>
    obtain ⟨h1, h2⟩ := h t (List.mem_cons_self _ _)
    obtain ⟨n1, hf1⟩ := Option.isSome_iff_exists.mp h1
    obtain ⟨n2, hf2⟩ := Option.isSome_iff_exists.mp h2
    have hr := ih (fun x hx => h x (List.mem_cons_of_mem _ hx))
    simp [import_edges, hf1, hf2, hr]

theorem find_label_isSome (ns : List PNode) (l : String)
    (h : ∃ n ∈ ns, nodeLabel n = l) :
    (ns.find? (fun n => nodeLabel n == l)).isSome = true := by
  rw [List.find?_isSome]
  obtain ⟨n, hn, he⟩ := h
  exact ⟨n, hn, by simp [he]⟩

/-- C5 amended: persistence round-trip.  For every well-formed scene
(`pwf`: the editor-operation invariants PLUS pairwise-distinct edge
(source, target) pairs — parallel duplicate edges, which drafting can
create, are merged by `nx.DiGraph.add_edge` and do not survive, see
the counterexample), exporting and re-importing succeeds and yields a
scene equal to the original attribute for attribute: node positions,
labels, kinds, kind-specific attributes and any extra attributes are
preserved (export additionally materializes the position as `x`/`y`
attributes), and every edge keeps its endpoints and its complete
attribute dict, extras included. -/
theorem persistence_round_trip (s : PScene) (h : pwf s) :
    ∃ g s2, export_nx_graph s = some g ∧ import_nx_graph g = some s2 ∧
      List.Forall₂ node_roundtrip s.nodes s2.nodes ∧
      List.Forall₂ edge_roundtrip s.edges s2.edges := by
  obtain ⟨hlbl, hnt, hxy, hnodnd, hlblnd, htgt, hsrc, hkeys, hednd, hpairs⟩ := h
  have hexp : export_edges s.edges []
      = some (s.edges.map (fun e => (e.src, e.tgt.getD "", e.edata))) := by
    rw [export_edges_eq s.edges []
      (fun e he => by
        obtain ⟨n, _, hne⟩ := htgt e he
        intro hc
        rw [hc] at hne
        exact absurd hne (by simp))
      (fun x hx => absurd hx (List.not_mem_nil x)) hpairs]
    rw [List.nil_append]
  have hnodes : export_nodes s.nodes [] = s.nodes.map export_node := by
    rw [export_nodes_eq s.nodes []
      (fun x hx => absurd hx (List.not_mem_nil x)) hlblnd]
    rw [List.nil_append]
  have hroundnode : ∀ n ∈ s.nodes, node_roundtrip n (import_node (export_node n)) :=
    fun n hn => node_import_export n (hlbl n hn) (hnt n hn) (hxy n hn).1 (hxy n hn).2
      (hnodnd n hn)
  have hlabelpres : ∀ n ∈ s.nodes,
      nodeLabel (import_node (export_node n)) = nodeLabel n := by
    intro n hn
    have hk := (hroundnode n hn).2.2.2.2 "label" (by decide) (by decide)
    unfold nodeLabel
    rw [hk]
  have hfinds : ∀ t ∈ s.edges.map (fun e => (e.src, e.tgt.getD "", e.edata)),
      (((s.nodes.map export_node).map import_node).find?
        (fun n => nodeLabel n == t.1)).isSome = true ∧
      (((s.nodes.map export_node).map import_node).find?
        (fun n => nodeLabel n == t.2.1)).isSome = true := by
    intro t ht
    obtain ⟨e, he, rfl⟩ := List.mem_map.mp ht
    constructor
    · refine find_label_isSome _ _ ?_
      obtain ⟨n, hn, hne⟩ := hsrc e he
      refine ⟨import_node (export_node n), ?_, ?_⟩
      · rw [List.map_map]
        exact List.mem_map.mpr ⟨n, hn, rfl⟩
      · rw [hlabelpres n hn]
        exact hne
    · refine find_label_isSome _ _ ?_
      obtain ⟨n, hn, hne⟩ := htgt e he
      refine ⟨import_node (export_node n), ?_, ?_⟩
      · rw [List.map_map]
        exact List.mem_map.mpr ⟨n, hn, rfl⟩
      · rw [hlabelpres n hn, ← hne]
        rfl
  have himp := import_edges_eq ((s.nodes.map export_node).map import_node)
    (s.edges.map (fun e => (e.src, e.tgt.getD "", e.edata))) hfinds
  refine ⟨⟨s.nodes.map export_node, s.edges.map (fun e => (e.src, e.tgt.getD "", e.edata))⟩,
    ⟨(s.nodes.map export_node).map import_node,
     (s.edges.map (fun e => (e.src, e.tgt.getD "", e.edata))).map (fun t =>
       (⟨t.1, some t.2.1, dictUpdate default_edge_data t.2.2⟩ : PEdge))⟩, ?_, ?_, ?_, ?_⟩
  · unfold export_nx_graph
    rw [hexp]
    simp [hnodes]
  · unfold import_nx_graph
    dsimp only
    rw [himp]
    rfl
  · show List.Forall₂ node_roundtrip s.nodes ((s.nodes.map export_node).map import_node)
    rw [List.map_map]
    exact List.forall₂_map_right_iff.mpr (List.forall₂_same.mpr hroundnode)
  · show List.Forall₂ edge_roundtrip s.edges
      ((s.edges.map (fun e => (e.src, e.tgt.getD "", e.edata))).map (fun t =>
        (⟨t.1, some t.2.1, dictUpdate default_edge_data t.2.2⟩ : PEdge)))
    rw [List.map_map]
    refine List.forall₂_map_right_iff.mpr (List.forall₂_same.mpr ?_)
    intro e he
    obtain ⟨n, _, hne⟩ := htgt e he
    refine ⟨rfl, ?_, ?_⟩
    · show some (e.tgt.getD "") = e.tgt
      rw [← hne]
      rfl
    · intro k
      show dictLookup (dictUpdate default_edge_data e.edata) k = dictLookup e.edata k
      rw [dictLookup_dictUpdate _ _ _ (hednd e he)]
      rcases hcase : dictLookup e.edata k with _ | v
      · obtain ⟨ht1, ht2, ht3⟩ := hkeys e he
        have hk1 : k ≠ "type" := fun hh => by
          rw [hh] at hcase; rw [hcase] at ht1; exact absurd ht1 (by decide)
        have hk2 : k ≠ "Kd" := fun hh => by
          rw [hh] at hcase; rw [hcase] at ht2; exact absurd ht2 (by decide)
        have hk3 : k ≠ "n" := fun hh => by
          rw [hh] at hcase; rw [hcase] at ht3; exact absurd ht3 (by decide)
        have h1 : ¬ ("type" : String) = k := fun hh => hk1 hh.symm
        have h2 : ¬ ("Kd" : String) = k := fun hh => hk2 hh.symm
        have h3 : ¬ ("n" : String) = k := fun hh => hk3 hh.symm
        simp [default_edge_data, dictLookup, h1, h2, h3]
      · rfl

/-- An input node as created by `add_input_node`. -/
def nodeI : PNode :=
  ⟨[("label", AttrVal.str "I1"), ("node_type", AttrVal.str "input")], 50, 50⟩

/-- A gene node as created by `add_gene_node`. -/
def nodeG : PNode :=
  ⟨[("label", AttrVal.str "G1"), ("node_type", AttrVal.str "gene"),
    ("alpha", AttrVal.int 10), ("logic_type", AttrVal.str "and")], 200, 50⟩

/-- A small well-formed scene: input I1, gene G1, one persisted edge. -/
def sceneP : PScene := ⟨[nodeI, nodeG], [⟨"I1", some "G1", default_edge_data⟩]⟩

theorem persistence_round_trip_witness :
    pwf sceneP ∧
    ∃ g s2, export_nx_graph sceneP = some g ∧ import_nx_graph g = some s2 ∧
      List.Forall₂ node_roundtrip sceneP.nodes s2.nodes ∧
      List.Forall₂ edge_roundtrip sceneP.edges s2.edges :=
  ⟨by unfold pwf; decide, persistence_round_trip sceneP (by unfold pwf; decide)⟩

/-- A scene with TWO parallel I1 → G1 edges (the second with `Kd = 2`),
as produced by drafting the same pair twice and editing one edge —
nothing in the editor prevents this. -/
def sceneDup : PScene :=
  ⟨[nodeI, nodeG],
   [⟨"I1", some "G1", default_edge_data⟩,
    ⟨"I1", some "G1", [("type", AttrVal.int 1), ("Kd", AttrVal.rat 2), ("n", AttrVal.rat 1)]⟩]⟩

/-- C5 counterexample: the round trip is NOT attribute-for-attribute for
every scene built purely from the editor's operations.  `sceneDup`
holds two parallel I1 → G1 edges (reachable by drafting twice), the
first with `Kd = 1`; `nx.DiGraph.add_edge` merges the second into the
first on export, so the exported file and the re-imported scene hold a
single I1 → G1 edge whose `Kd` is 2 — one edge and its `Kd = 1`
attribute are lost, so `import(export(G))` differs from `G`. -/
theorem parallel_edges_lost :
    sceneDup.edges.length = 2 ∧
    dictLookup (sceneDup.edges.getD 0 ⟨"", none, []⟩).edata "Kd" = some (AttrVal.rat 1) ∧
    (export_nx_graph sceneDup).map (fun g => g.gedges.length) = some 1 ∧
    ((export_nx_graph sceneDup).bind import_nx_graph).map
        (fun s2 => s2.edges.map (fun e => dictLookup e.edata "Kd"))
      = some [some (AttrVal.rat 2)] := by
  refine ⟨rfl, by decide, by decide, by decide⟩

/-- A graph file whose only node has the unrecognized kind "banana". -/
def bananaGraph : NXGraph :=
  ⟨[("N1", [("label", AttrVal.str "N1"), ("node_type", AttrVal.str "banana")])], []⟩

/-- C8 counterexample: the import performs no validation of node kinds.
`bananaGraph` contains a node whose `node_type` is none of input /
output / gene, yet `import_nx_graph` succeeds on it instead of failing
with `MalformedFile` as the claim requires. -/
theorem import_accepts_unknown_kind :
    (∀ p ∈ bananaGraph.gnodes,
       dictLookup p.2 "node_type" ≠ some (AttrVal.str "input") ∧
       dictLookup p.2 "node_type" ≠ some (AttrVal.str "output") ∧
       dictLookup p.2 "node_type" ≠ some (AttrVal.str "gene")) ∧
    (import_nx_graph bananaGraph).isSome = true := by
  constructor
  · decide
  · decide

theorem import_edges_isSome (ns : List PNode) (ge : List (String × String × Dict)) :
    (import_edges ns ge).isSome = true ↔
      ∀ t ∈ ge, (ns.find? (fun n => nodeLabel n == t.1)).isSome = true ∧
        (ns.find? (fun n => nodeLabel n == t.2.1)).isSome = true := by
  induction ge with
  | nil => simp [import_edges]
  | cons t rest ih =>
    cases hf1 : ns.find? (fun n => nodeLabel n == t.1) with
    | none =>
      simp only [import_edges, hf1]
      constructor
      · intro h
        exact absurd h (by simp)
      · intro h
        have := (h t (List.mem_cons_self _ _)).1
        rw [hf1] at this
        exact absurd this (by decide)
    | some n1 =>
      cases hf2 : ns.find? (fun n => nodeLabel n == t.2.1) with
      | none =>
        simp only [import_edges, hf1, hf2]
        constructor
        · intro h
          exact absurd h (by simp)
        · intro h
          have := (h t (List.mem_cons_self _ _)).2
          rw [hf2] at this
          exact absurd this (by decide)
      | some n2 =>
        simp only [import_edges, hf1, hf2]
        constructor
        · intro h
          intro x hx
          rcases List.mem_cons.mp hx with rfl | hx2
          · exact ⟨by rw [hf1]; rfl, by rw [hf2]; rfl⟩
          · have hrest : (import_edges ns rest).isSome = true := by
              cases hr : import_edges ns rest with
              | none => rw [hr] at h; exact absurd h (by simp)
              | some es => rfl
            exact (ih.mp hrest) x hx2
        · intro h
          have hrest := ih.mpr (fun x hx => h x (List.mem_cons_of_mem _ hx))
          cases hr : import_edges ns rest with
          | none => rw [hr] at hrest; exact absurd hrest (by decide)
          | some es => simp [hr]

/-- C8 amended: import succeeds exactly when every edge's source and
target labels resolve to a node created from the file's node section —
the `next(...)` endpoint lookup is the ONLY failure mode (and it raises
an untyped `StopIteration`, not a typed `MalformedFile`); a node whose
kind is not one of input / output / gene is accepted and treated like a
normal node rather than rejected, and node kinds are never
validated. -/
theorem import_success_iff (g : NXGraph) :
    (import_nx_graph g).isSome = true ↔
      ∀ t ∈ g.gedges,
        (∃ n ∈ g.gnodes.map import_node, nodeLabel n = t.1) ∧
        (∃ n ∈ g.gnodes.map import_node, nodeLabel n = t.2.1) := by
  unfold import_nx_graph
  dsimp only
  have hmapsome : ∀ (o : Option (List PEdge)),
      (Option.map (fun es => (⟨g.gnodes.map import_node, es⟩ : PScene)) o).isSome
        = o.isSome := by
    intro o
    cases o <;> rfl
  rw [hmapsome, import_edges_isSome]
  constructor
  · intro h t ht
    obtain ⟨h1, h2⟩ := h t ht
    rw [List.find?_isSome] at h1 h2
    obtain ⟨n1, hn1, he1⟩ := h1
    obtain ⟨n2, hn2, he2⟩ := h2
    exact ⟨⟨n1, hn1, by simpa using he1⟩, ⟨n2, hn2, by simpa using he2⟩⟩
  · intro h t ht
    obtain ⟨⟨n1, hn1, he1⟩, ⟨n2, hn2, he2⟩⟩ := h t ht
    constructor
    · rw [List.find?_isSome]
      exact ⟨n1, hn1, by simp [he1]⟩
    · rw [List.find?_isSome]
      exact ⟨n2, hn2, by simp [he2]⟩

/-- A two-node graph file with one edge between them. -/
def twoNodeGraph : NXGraph :=
  ⟨[("A", [("node_type", AttrVal.str "input")]), ("B", [("node_type", AttrVal.str "gene")])],
   [("A", "B", [])]⟩

theorem import_success_iff_witness : (import_nx_graph twoNodeGraph).isSome = true :=
  (import_success_iff twoNodeGraph).mpr (by decide)

/-- A scene holding a live drafting transient: gene G1 with an
unfinished edge out of it (target unset). -/
def sceneDraft : PScene := ⟨[nodeG], [⟨"G1", none, default_edge_data⟩]⟩

/-- C10 counterexample: with a live draft present, export does NOT
succeed while skipping the transient edge as the claim states — it
dereferences the unset target (`item.target_node.node_data`, an
`AttributeError` on `None`) and fails, and `build_grn` likewise fails
because the gene loop reads the unset target's label for the `products`
list. -/
theorem export_fails_on_live_draft :
    (∃ e ∈ sceneDraft.edges, e.tgt = none) ∧
    export_nx_graph sceneDraft = none ∧ build_grn sceneDraft = none := by
  refine ⟨by decide, by decide, by decide⟩

theorem export_edges_none (edges : List PEdge) (acc : List (String × String × Dict))
    (h : ∃ e ∈ edges, e.tgt = none) : export_edges edges acc = none := by
  induction edges generalizing acc with
  | nil => obtain ⟨e, he, _⟩ := h; exact absurd he (by simp)
  | cons a rest ih =>
    obtain ⟨e, he, het⟩ := h
    rcases List.mem_cons.mp he with rfl | he2
    · simp [export_edges, het]
    · cases hat : a.tgt with
      | none => simp [export_edges, hat]
      | some t => simp [export_edges, hat, ih _ ⟨e, he2, het⟩]

theorem gene_scan_none (gl : String) (edges : List PEdge)
    (h : ∃ e ∈ edges, e.src = gl ∧ e.tgt = none) : gene_scan gl edges = none := by
  induction edges with
  | nil => obtain ⟨e, he, _⟩ := h; exact absurd he (by simp)
  | cons a rest ih =>
    obtain ⟨e, he, hes, het⟩ := h
    rcases List.mem_cons.mp he with rfl | he2
    · simp [gene_scan, hes, het]
    · by_cases ha : a.src = gl
      · cases hat : a.tgt with
        | none => simp [gene_scan, ha, hat]
        | some t => simp [gene_scan, ha, hat, ih ⟨e, he2, hes, het⟩]
      · by_cases hat2 : a.tgt = some gl
        · simp [gene_scan, ha, hat2, ih ⟨e, he2, hes, het⟩]
        · simp [gene_scan, ha, hat2, ih ⟨e, he2, hes, het⟩]

theorem build_genes_none (edges : List PEdge) (gl : List PNode)
    (h : ∃ g ∈ gl, gene_scan (nodeLabel g) edges = none) : build_genes edges gl = none := by
  induction gl with
  | nil => obtain ⟨g, hg, _⟩ := h; exact absurd hg (by simp)
  | cons g rest ih =>
    obtain ⟨g2, hg2, hscan2⟩ := h
    rcases List.mem_cons.mp hg2 with rfl | hg3
    · simp [build_genes, hscan2]
    · cases hscan : gene_scan (nodeLabel g) edges with
      | none => simp [build_genes, hscan]
      | some rp => simp [build_genes, hscan, ih ⟨g2, hg3, hscan2⟩]

/-- C10 amended: while a drafting transient (unset-target edge) is in
the scene, export never outputs it — but by failing outright (the unset
target is dereferenced), not by succeeding as if the transient did not
exist; `build_grn` likewise fails whenever the transient's source is a
gene node (otherwise its loops skip the transient, since
`None == geneNodes` is false). -/
theorem live_draft_never_exported (s : PScene) (e : PEdge)
    (he : e ∈ s.edges) (het : e.tgt = none) :
    export_nx_graph s = none ∧
    (∀ g ∈ s.nodes, isType g "gene" = true → nodeLabel g = e.src → build_grn s = none) := by
  constructor
  · unfold export_nx_graph
    rw [export_edges_none s.edges [] ⟨e, he, het⟩]
    rfl
  · intro g hg hgt hgl
    have hscan : gene_scan (nodeLabel g) s.edges = none :=
      gene_scan_none _ _ ⟨e, he, hgl.symm, het⟩
    have hmem : g ∈ s.nodes.filter (fun n => isType n "gene") :=
      List.mem_filter.mpr ⟨hg, hgt⟩
    unfold build_grn
    rw [build_genes_none s.edges _ ⟨g, hmem, hscan⟩]
    rfl

theorem live_draft_never_exported_witness :
    export_nx_graph sceneDraft = none ∧ build_grn sceneDraft = none := by
  have h := live_draft_never_exported sceneDraft ⟨"G1", none, default_edge_data⟩
    (by decide) rfl
  exact ⟨h.1, h.2 nodeG (by decide) (by decide) (by decide)⟩

/-! ## Invalid attribute rejection (`NodeItem.mouseDoubleClickEvent`) -/

/-- The logic-type editing step of the gene branch of
`NodeItem.mouseDoubleClickEvent`: the dialog returns `(new_logic, ok)`;
an accepted value in {and, or} is stored in `node_data`; any other
accepted value leaves `node_data` untouched and prints an error line to
stdout, returned here as the optional console message (the source text
quotes the words and / or). -/
def edit_logic_type (node_data : Dict) (ok : Bool) (new_logic : String) :
    Dict × Option String :=
  if ok = true ∧ (new_logic = "and" ∨ new_logic = "or") then
    (dictSet node_data "logic_type" (AttrVal.str new_logic), none)
  else if ok = true then
    (node_data, some "Error: Logic type should be either and / or.")
  else (node_data, none)

/-- C7 counterexample: setting the logic type of a gene node to xor is
rejected, but not with a typed `InvalidAttribute` failure: the code
prints an error message to the console — an untyped side channel, the
only rejection signal in the code — while leaving `node_data`
unchanged (so the prior value survives, but the typed-error part of
the claim is false). -/
theorem logic_type_rejection_untyped :
    edit_logic_type nodeG.data true "xor"
      = (nodeG.data, some "Error: Logic type should be either and / or.") ∧
    dictLookup (edit_logic_type nodeG.data true "xor").1 "logic_type"
      = some (AttrVal.str "and") := by
  constructor
  · decide
  · decide

/-- C7 amended: an accepted logic-type value outside {and, or} leaves the
node dict entirely unchanged (no partial update) and emits a console
error message — an untyped print, not a typed `InvalidAttribute`
error; in particular the prior `logic_type` value is preserved. -/
theorem logic_type_invalid_rejected (d : Dict) (v : String)
    (hv1 : v ≠ "and") (hv2 : v ≠ "or") :
    edit_logic_type d true v
      = (d, some "Error: Logic type should be either and / or.") ∧
    dictLookup (edit_logic_type d true v).1 "logic_type"
      = dictLookup d "logic_type" := by
  have hcond : ¬ ((true = true) ∧ (v = "and" ∨ v = "or")) := by
    rintro ⟨_, h | h⟩
    · exact hv1 h
    · exact hv2 h
  unfold edit_logic_type
  rw [if_neg hcond]
  exact ⟨rfl, rfl⟩

theorem logic_type_invalid_rejected_witness :
    edit_logic_type nodeG.data true "xor"
      = (nodeG.data, some "Error: Logic type should be either and / or.") ∧
    dictLookup (edit_logic_type nodeG.data true "xor").1 "logic_type"
      = dictLookup nodeG.data "logic_type" :=
  logic_type_invalid_rejected nodeG.data "xor" (by decide) (by decide)

/-! ## Edge geometry (`EdgeItem.update_positions`, `NodeItem.itemChange`)

The trigonometric endpoint computation is embedded over the reals.  The
source computes `angle = atan2(ty - sy, tx - sx)` and offsets each
endpoint by `radius * cos angle` / `radius * sin angle`; for a nonzero
direction vector `(dx, dy)`, `cos (atan2 dy dx) = dx / sqrt (dx^2 + dy^2)`
and `sin (atan2 dy dx) = dy / sqrt (dx^2 + dy^2)`, which is the form
embedded here (and also the characterizing property used to state the
claim with an explicit angle). -/

structure GeoNode where
  gid : Nat
  x : ℝ
  y : ℝ
  diameter : ℝ

noncomputable def geo_center (n : GeoNode) : ℝ × ℝ :=
  (n.x + n.diameter / 2, n.y + n.diameter / 2)

noncomputable def geo_radius (n : GeoNode) : ℝ := n.diameter / 2

/-- `EdgeItem.update_positions` with a target present: both endpoints of
the drawn line are the node centers offset along the connecting
direction by the node radius. -/
noncomputable def update_positions (s t : GeoNode) : ℝ × ℝ × ℝ × ℝ :=
  let sx := s.x + s.diameter / 2
  let sy := s.y + s.diameter / 2
  let tx := t.x + t.diameter / 2
  let ty := t.y + t.diameter / 2
  let dist := Real.sqrt ((tx - sx) ^ 2 + (ty - sy) ^ 2)
  (sx + s.diameter / 2 * ((tx - sx) / dist),
   sy + s.diameter / 2 * ((ty - sy) / dist),
   tx - t.diameter / 2 * ((tx - sx) / dist),
   ty - t.diameter / 2 * ((ty - sy) / dist))

structure GeoEdge where
  src : Nat
  tgt : Nat
  line : ℝ × ℝ × ℝ × ℝ

structure GeoScene where
  gnodes : List GeoNode
  gedges : List GeoEdge

def findGeoNode (l : List GeoNode) (i : Nat) : Option GeoNode :=
  l.find? (fun n => n.gid == i)

/-- `NodeItem.itemChange` on a position change of node `i`: the node
moves to `(px, py)` and every edge registered with it (i.e. incident to
it) synchronously recomputes its stored line via `update_positions`;
edges not incident to the moved node are untouched.  The new position
is modelled as applied when the recomputation runs. -/
noncomputable def moveNode (sc : GeoScene) (i : Nat) (px py : ℝ) : GeoScene :=
  { gnodes := sc.gnodes.map (fun n => if n.gid = i then { n with x := px, y := py } else n)
    gedges := sc.gedges.map (fun e =>
      if e.src = i ∨ e.tgt = i then
        match
          findGeoNode (sc.gnodes.map
            (fun n => if n.gid = i then { n with x := px, y := py } else n)) e.src,
          findGeoNode (sc.gnodes.map
            (fun n => if n.gid = i then { n with x := px, y := py } else n)) e.tgt with
        | some a, some b => { e with line := update_positions a b }
        | _, _ => e
      else e) }

/-- Every edge's stored line agrees with `update_positions` of its
endpoint nodes: the rendered geometry is a pure function of the node
positions, kept in sync rather than recomputed lazily. -/
def lines_consistent (sc : GeoScene) : Prop :=
  ∀ e ∈ sc.gedges, ∀ a b, findGeoNode sc.gnodes e.src = some a →
    findGeoNode sc.gnodes e.tgt = some b → e.line = update_positions a b

theorem findGeoNode_move (l : List GeoNode) (i j : Nat) (px py : ℝ) (hij : j ≠ i) :
    findGeoNode (l.map (fun n => if n.gid = i then { n with x := px, y := py } else n)) j
      = findGeoNode l j := by
  induction l with
  | nil => rfl
  | cons n rest ih =>
    by_cases hni : n.gid = i
    · have hnj : ¬ n.gid == j := by
        simp only [beq_iff_eq]
        intro hh
        exact hij (hh ▸ hni.symm ▸ rfl)
      simp only [findGeoNode, List.map_cons] at ih ⊢
      rw [if_pos hni]
      rw [List.find?_cons_of_neg, List.find?_cons_of_neg]
      · exact ih
      · simpa using hnj
      · simpa [hni] using hnj
    · simp only [findGeoNode, List.map_cons] at ih ⊢
      rw [if_neg hni]
      by_cases hnj : n.gid = j
      · rw [List.find?_cons_of_pos, List.find?_cons_of_pos] <;> simp [hnj]
      · rw [List.find?_cons_of_neg, List.find?_cons_of_neg]
        · exact ih
        · simp [hnj]
        · simp [hnj]

/-- C6: edge re-routing.  (1) Moving any node keeps every edge's stored
line equal to `update_positions` of its endpoints — incident edges are
recomputed synchronously inside the move itself, non-incident edges are
unaffected — so geometry queries are always consistent.  (2) The line
computed by `update_positions` is exactly the claimed pure geometric
function: with `θ` the angle `atan2` of the center difference
(characterized by its cosine and sine), each endpoint is the center
offset by the node radius along `(cos θ, sin θ)`. -/
theorem edge_rerouting :
    (∀ (sc : GeoScene) (i : Nat) (px py : ℝ),
       lines_consistent sc → lines_consistent (moveNode sc i px py)) ∧
    (∀ (s t : GeoNode) (θ : ℝ),
       Real.cos θ = ((geo_center t).1 - (geo_center s).1) /
         Real.sqrt (((geo_center t).1 - (geo_center s).1) ^ 2 +
           ((geo_center t).2 - (geo_center s).2) ^ 2) →
       Real.sin θ = ((geo_center t).2 - (geo_center s).2) /
         Real.sqrt (((geo_center t).1 - (geo_center s).1) ^ 2 +
           ((geo_center t).2 - (geo_center s).2) ^ 2) →
       update_positions s t =
         ((geo_center s).1 + geo_radius s * Real.cos θ,
          (geo_center s).2 + geo_radius s * Real.sin θ,
          (geo_center t).1 - geo_radius t * Real.cos θ,
          (geo_center t).2 - geo_radius t * Real.sin θ)) := by
  constructor
  · intro sc i px py hcons e2 he2 a b hfa hfb
    simp only [moveNode] at he2 hfa hfb
    obtain ⟨e, he, hfe⟩ := List.mem_map.mp he2
    by_cases hinc : e.src = i ∨ e.tgt = i
    · rw [if_pos hinc] at hfe
      cases hna : findGeoNode (sc.gnodes.map
          (fun n => if n.gid = i then { n with x := px, y := py } else n)) e.src with
      | none =>
        rw [hna] at hfe
        have hsrc2 : e2.src = e.src := by
          cases hnb : findGeoNode (sc.gnodes.map
              (fun n => if n.gid = i then { n with x := px, y := py } else n)) e.tgt with
          | none => rw [hnb] at hfe; rw [← hfe]
          | some b2 => rw [hnb] at hfe; rw [← hfe]
        rw [hsrc2] at hfa
        rw [hfa] at hna
        exact absurd hna (by simp)
      | some a2 =>
        rw [hna] at hfe
        cases hnb : findGeoNode (sc.gnodes.map
            (fun n => if n.gid = i then { n with x := px, y := py } else n)) e.tgt with
        | none =>
          rw [hnb] at hfe
          have htgt2 : e2.tgt = e.tgt := by rw [← hfe]
          rw [htgt2] at hfb
          rw [hfb] at hnb
          exact absurd hnb (by simp)
        | some b2 =>
          rw [hnb] at hfe
          have hsrc2 : e2.src = e.src := by rw [← hfe]
          have htgt2 : e2.tgt = e.tgt := by rw [← hfe]
          rw [hsrc2] at hfa
          rw [htgt2] at hfb
          rw [hfa] at hna
          rw [hfb] at hnb
          injection hna with ha2
          injection hnb with hb2
          rw [← hfe, ← ha2, ← hb2]
    · rw [if_neg hinc] at hfe
      subst hfe
      push_neg at hinc
      rw [findGeoNode_move sc.gnodes i e.src px py hinc.1] at hfa
      rw [findGeoNode_move sc.gnodes i e.tgt px py hinc.2] at hfb
      exact hcons e he a b hfa hfb
  · intro s t θ hc hs
    simp only [update_positions, geo_center, geo_radius] at hc hs ⊢
    rw [hc, hs]

/-- Geometry witness node with center (0,0). -/
noncomputable def geoN1 : GeoNode := ⟨0, -25, -25, 50⟩

/-- Geometry witness node with center (100,0). -/
noncomputable def geoN2 : GeoNode := ⟨1, 75, -25, 50⟩

/-- A consistent scene: one edge whose line runs from (25,0) to (75,0),
the circle-boundary endpoints for centers (0,0) and (100,0). -/
noncomputable def scW : GeoScene := ⟨[geoN1, geoN2], [⟨0, 1, (25, 0, 75, 0)⟩]⟩

theorem update_positions_ex : update_positions geoN1 geoN2 = (25, 0, 75, 0) := by
  have h1 : ((((75:ℝ)) + 50 / 2) - ((-25) + 50 / 2)) ^ 2 +
      ((((-25:ℝ)) + 50 / 2) - ((-25) + 50 / 2)) ^ 2 = 100 ^ 2 := by norm_num
  simp only [update_positions, geoN1, geoN2]
  rw [h1, Real.sqrt_sq (by norm_num : (0:ℝ) ≤ 100)]
  norm_num

theorem scW_consistent : lines_consistent scW := by
  intro e he a b hfa hfb
  have he2 : e = ⟨0, 1, (25, 0, 75, 0)⟩ := by simpa [scW] using he
  subst he2
  have ha : a = geoN1 := by
    have h := hfa
    rw [show findGeoNode scW.gnodes (GeoEdge.mk 0 1 (25, 0, 75, 0)).src = some geoN1
      from rfl] at h
    injection h with h2
    exact h2.symm
  have hb : b = geoN2 := by
    have h := hfb
    rw [show findGeoNode scW.gnodes (GeoEdge.mk 0 1 (25, 0, 75, 0)).tgt = some geoN2
      from rfl] at h
    injection h with h2
    exact h2.symm
  rw [ha, hb, update_positions_ex]

theorem edge_rerouting_witness :
    lines_consistent (moveNode scW 0 200 (-25)) ∧
    update_positions geoN1 geoN2 =
      ((geo_center geoN1).1 + geo_radius geoN1 * Real.cos 0,
       (geo_center geoN1).2 + geo_radius geoN1 * Real.sin 0,
       (geo_center geoN2).1 - geo_radius geoN2 * Real.cos 0,
       (geo_center geoN2).2 - geo_radius geoN2 * Real.sin 0) := by
  have hdx : (geo_center geoN2).1 - (geo_center geoN1).1 = (100:ℝ) := by
    norm_num [geo_center, geoN1, geoN2]
  have hdy : (geo_center geoN2).2 - (geo_center geoN1).2 = (0:ℝ) := by
    norm_num [geo_center, geoN1, geoN2]
  have hsq : Real.sqrt ((100:ℝ) ^ 2 + 0 ^ 2) = 100 := by
    rw [show ((100:ℝ) ^ 2 + 0 ^ 2) = 100 ^ 2 by norm_num,
      Real.sqrt_sq (by norm_num : (0:ℝ) ≤ 100)]
  constructor
  · exact edge_rerouting.1 scW 0 200 (-25) scW_consistent
  · refine edge_rerouting.2 geoN1 geoN2 0 ?_ ?_
    · rw [Real.cos_zero, hdx, hdy, hsq]
      norm_num
    · rw [Real.sin_zero, hdx, hdy, hsq]
      norm_num

end Grenmlin
